import Mathlib

/-!
Shallow embedding of the windspotter navigability engine.

The engine consists of `calculateSlots` (two variants: the front-end one in
`src/utils/navigability.ts` without a `windSpeedMax` test, and the Cloud
Functions one in `functions/src/navigability.ts` with it), the shared slot
builder `buildSlot`, the circular-mean helper `averageDirection`, and the
16-point compass encoder `dirText` (one copy in `src/utils/windDirection.ts`,
one in `functions/src/utils.ts`).

Modelling conventions:
* JS numbers used only in comparisons/arithmetic on speeds, gusts and
  thresholds are modelled as `ℚ`; hour fields as `ℤ`; values flowing through
  trigonometric functions as `ℝ`.
* `Math.round x` is `⌊x + 1/2⌋` (JS rounds half toward +∞).
* The JS remainder operator `%` truncates toward zero and keeps the sign of
  the dividend: `Int.tmod`.
* JS out-of-range array indexing yields `undefined`, modelled as `none`.
-/

/-- JavaScript `Math.round` on rationals: round half toward positive infinity. -/
def jsRound (q : ℚ) : ℤ := ⌊q + 1 / 2⌋

/-- JavaScript `Math.round` on reals: round half toward positive infinity. -/
noncomputable def jsRoundR (x : ℝ) : ℤ := ⌊x + 1 / 2⌋

/-- JavaScript `Math.atan2 y x` in exact real arithmetic: the angle of the
point `(x, y)`, in `(-π, π]`, with `atan2 0 0 = 0`. -/
noncomputable def atan2 (y x : ℝ) : ℝ :=
  if 0 < x then Real.arctan (y / x)
  else if x < 0 then
    (if 0 ≤ y then Real.arctan (y / x) + Real.pi else Real.arctan (y / x) - Real.pi)
  else
    (if 0 < y then Real.pi / 2 else if y < 0 then -(Real.pi / 2) else 0)

/-- `HourlyData` from `src/types/forecast.ts` (identical in
`functions/src/types.ts`): one hour's wind observation. -/
structure HourlyData where
  hour : ℤ
  speed : ℚ
  gust : ℚ
  dir : ℚ
  dirText : String
  sun : ℚ
deriving DecidableEq, Repr

/-- `NavigabilityConfig` from `src/types/forecast.ts` (identical in
`functions/src/types.ts`). -/
structure NavigabilityConfig where
  windSpeedMin : ℚ
  windSpeedMax : ℚ
  gustMin : ℚ
  minConsecutiveHours : ℚ
  dayStartHour : ℤ
  dayEndHour : ℤ
  timezone : String
deriving DecidableEq, Repr

/-- `NavigableSlot` from `src/types/forecast.ts`.  The `direction` field is a
JS string that can be `undefined` when the compass lookup goes out of range,
hence `Option String`. -/
structure NavigableSlot where
  start : ℤ
  «end» : ℤ
  hours : ℕ
  avgSpeed : ℤ
  avgGust : ℤ
  direction : Option String
deriving DecidableEq, Repr

/-- `averageDirection` from `src/utils/navigability.ts` (the copy in
`functions/src/navigability.ts` is identical): circular mean of a list of
degree values, rounded to the nearest integer degree. -/
noncomputable def averageDirection (directions : List ℝ) : ℤ :=
  let sinSum := directions.foldl (fun s deg => s + Real.sin (deg * Real.pi / 180)) 0
  let cosSum := directions.foldl (fun s deg => s + Real.cos (deg * Real.pi / 180)) 0
  let avg := atan2 sinSum cosSum * 180 / Real.pi
  jsRoundR (if avg < 0 then avg + 360 else avg)

/-- The window filter at the top of both `calculateSlots` implementations:
keep the samples with `dayStartHour <= hour < dayEndHour`, preserving order. -/
def validHours (hourly : List HourlyData) (config : NavigabilityConfig) : List HourlyData :=
  hourly.filter (fun h => decide (config.dayStartHour ≤ h.hour ∧ h.hour < config.dayEndHour))

/-- The run-tracking loop shared verbatim by both `calculateSlots`
implementations, parameterised by the per-sample navigability test and the
slot builder.  `runStart = -1` is the source's sentinel for "no active run". -/
def slotsLoop (nav : HourlyData → Bool) (minC : ℚ)
    (build : ℤ → List HourlyData → NavigableSlot) :
    List HourlyData → ℤ → List HourlyData → List NavigableSlot → List NavigableSlot
  | [], runStart, runHours, slots =>
    if minC ≤ (runHours.length : ℚ) then slots ++ [build runStart runHours] else slots
  | h :: rest, runStart, runHours, slots =>
    if nav h then
      slotsLoop nav minC build rest (if runStart = -1 then h.hour else runStart)
        (runHours ++ [h]) slots
    else
      slotsLoop nav minC build rest (-1) []
        (if minC ≤ (runHours.length : ℚ) then slots ++ [build runStart runHours] else slots)

namespace Frontend

/-- The 16-point compass table of `dirText` in `src/utils/windDirection.ts`. -/
def compassDirs : List String :=
  ["N", "NNE", "NE", "ENE", "E", "ESE", "SE", "SSE",
   "S", "SSO", "SO", "OSO", "O", "ONO", "NO", "NNO"]

/-- `dirText` from `src/utils/windDirection.ts`:
`dirs[Math.round(deg / 22.5) % 16]`.  A negative JS remainder indexes out of
range and yields `undefined` (`none`). -/
noncomputable def dirText (deg : ℝ) : Option String :=
  let i := Int.tmod (jsRoundR (deg / 22.5)) 16
  if 0 ≤ i then compassDirs[i.toNat]? else none

/-- `buildSlot` from `src/utils/navigability.ts`.  The source indexes
`hours[hours.length - 1]`, well defined only for nonempty runs; the `none`
branch of `getLast?` is unreachable under the caller's length guard. -/
noncomputable def buildSlot (startHour : ℤ) (hours : List HourlyData) : NavigableSlot :=
  let avgSpeed := jsRound ((hours.foldl (fun sum h => sum + h.speed) 0) / (hours.length : ℚ))
  let avgGust := jsRound ((hours.foldl (fun sum h => sum + h.gust) 0) / (hours.length : ℚ))
  let avgDir := averageDirection (hours.map (fun h => (h.dir : ℝ)))
  { start := startHour
    «end» := (match hours.getLast? with | some h => h.hour | none => 0) + 1
    hours := hours.length
    avgSpeed := avgSpeed
    avgGust := avgGust
    direction := dirText (avgDir : ℝ) }

/-- The navigability test inside the front-end `calculateSlots`
(`src/utils/navigability.ts`): `h.speed >= windSpeedMin && h.gust >= gustMin`. -/
def isNavigable (config : NavigabilityConfig) (h : HourlyData) : Bool :=
  decide (config.windSpeedMin ≤ h.speed) && decide (config.gustMin ≤ h.gust)

/-- `calculateSlots` from `src/utils/navigability.ts`. -/
noncomputable def calculateSlots (hourly : List HourlyData) (config : NavigabilityConfig) :
    List NavigableSlot :=
  slotsLoop (isNavigable config) config.minConsecutiveHours buildSlot
    (validHours hourly config) (-1) [] []

end Frontend

namespace Functions

/-- The 16-point compass table of `dirText` in `functions/src/utils.ts`. -/
def compassDirs : List String :=
  ["N", "NNE", "NE", "ENE", "E", "ESE", "SE", "SSE",
   "S", "SSO", "SO", "OSO", "O", "ONO", "NO", "NNO"]

/-- `dirText` from `functions/src/utils.ts`. -/
noncomputable def dirText (deg : ℝ) : Option String :=
  let i := Int.tmod (jsRoundR (deg / 22.5)) 16
  if 0 ≤ i then compassDirs[i.toNat]? else none

/-- `buildSlot` from `functions/src/navigability.ts`. -/
noncomputable def buildSlot (startHour : ℤ) (hours : List HourlyData) : NavigableSlot :=
  let avgSpeed := jsRound ((hours.foldl (fun sum h => sum + h.speed) 0) / (hours.length : ℚ))
  let avgGust := jsRound ((hours.foldl (fun sum h => sum + h.gust) 0) / (hours.length : ℚ))
  let avgDir := averageDirection (hours.map (fun h => (h.dir : ℝ)))
  { start := startHour
    «end» := (match hours.getLast? with | some h => h.hour | none => 0) + 1
    hours := hours.length
    avgSpeed := avgSpeed
    avgGust := avgGust
    direction := dirText (avgDir : ℝ) }

/-- The navigability test inside the Cloud Functions `calculateSlots`
(`functions/src/navigability.ts`): it adds `h.speed <= windSpeedMax`. -/
def isNavigable (config : NavigabilityConfig) (h : HourlyData) : Bool :=
  decide (config.windSpeedMin ≤ h.speed) && decide (h.speed ≤ config.windSpeedMax) &&
    decide (config.gustMin ≤ h.gust)

/-- `calculateSlots` from `functions/src/navigability.ts`. -/
noncomputable def calculateSlots (hourly : List HourlyData) (config : NavigabilityConfig) :
    List NavigableSlot :=
  slotsLoop (isNavigable config) config.minConsecutiveHours buildSlot
    (validHours hourly config) (-1) [] []

end Functions

/-! ### Auxiliary predicates and concrete inputs -/

/-- `r` occurs as a contiguous block inside `l`. -/
def contiguousIn (r l : List HourlyData) : Prop := ∃ p s, l = p ++ r ++ s

/-- The input ordering precondition: hours strictly ascending (hence unique). -/
def hourAsc (l : List HourlyData) : Prop := l.Pairwise (fun a b => a.hour < b.hour)

/-- Gap-free hourly coverage: each sample's hour is its predecessor's plus one. -/
def hourDense (l : List HourlyData) : Prop := l.Chain' (fun a b => b.hour = a.hour + 1)

/-- The ordering relation claimed for output slots: strictly ascending starts
and no overlap. -/
def slotOrd (s1 s2 : NavigableSlot) : Prop := s1.start < s2.start ∧ s1.«end» ≤ s2.start

/-- Convenience constructor for samples (display-only fields defaulted). -/
def mkH (hour : ℤ) (speed gust dir : ℚ) : HourlyData := ⟨hour, speed, gust, dir, "", 0⟩

/-- Concrete scenario 1 of the spec: hours 7-19, navigable wind on hours 10-13. -/
def scenario1Input : List HourlyData :=
  [mkH 7 5 10 0, mkH 8 5 10 0, mkH 9 5 10 0,
   mkH 10 20 30 180, mkH 11 20 30 180, mkH 12 20 30 180, mkH 13 20 30 180,
   mkH 14 5 10 0, mkH 15 5 10 0, mkH 16 5 10 0, mkH 17 5 10 0,
   mkH 18 5 10 0, mkH 19 5 10 0]

/-- Config of scenario 1 (`windSpeedMax` unused by the front-end variant). -/
def scenario1Config : NavigabilityConfig := ⟨15, 100, 25, 2, 7, 20, "Europe/Zurich"⟩

/-- Ascending, hour-unique input with a gap: hour 11 is missing. -/
def gapInput : List HourlyData := [mkH 10 20 30 0, mkH 12 20 30 0]

/-- A config whose window contains `gapInput`. -/
def gapConfig : NavigabilityConfig := ⟨15, 100, 25, 2, 0, 24, "Europe/Zurich"⟩

/-- A two-hour navigable run used to instantiate the invariant theorems. -/
def navInput : List HourlyData := [mkH 10 20 30 180, mkH 11 20 30 180]

/-- Config for `navInput`, with `windSpeedMax` strictly above both speeds. -/
def navConfig : NavigabilityConfig := ⟨15, 40, 25, 2, 7, 20, "Europe/Zurich"⟩

/-! ### Basic facts about the embedded definitions -/

theorem contiguousIn_subset {r l : List HourlyData} (hc : contiguousIn r l) :
    ∀ x ∈ r, x ∈ l := by
  obtain ⟨p, s, rfl⟩ := hc
  intro x hx
  simp only [List.mem_append]
  exact Or.inl (Or.inr hx)

theorem mem_validHours {x : HourlyData} {hourly : List HourlyData}
    {c : NavigabilityConfig} :
    x ∈ validHours hourly c ↔
      x ∈ hourly ∧ c.dayStartHour ≤ x.hour ∧ x.hour < c.dayEndHour := by
  simp [validHours, List.mem_filter]

theorem compassDirs_eq : Functions.compassDirs = Frontend.compassDirs := rfl

theorem dirText_eq : Functions.dirText = Frontend.dirText := rfl

theorem buildSlot_eq : Functions.buildSlot = Frontend.buildSlot := rfl

theorem buildSlot_start (s : ℤ) (r : List HourlyData) :
    (Frontend.buildSlot s r).start = s := rfl

theorem buildSlot_hours (s : ℤ) (r : List HourlyData) :
    (Frontend.buildSlot s r).hours = r.length := rfl

theorem buildSlot_end_cons (s : ℤ) (a : HourlyData) (t : List HourlyData) :
    (Frontend.buildSlot s (a :: t)).«end» =
      ((a :: t).getLast (List.cons_ne_nil a t)).hour + 1 := by
  simp only [Frontend.buildSlot, List.getLast?_eq_getLast (a :: t) (List.cons_ne_nil a t)]

/-! ### The run-provenance lemma for the scanning loop -/

section LoopLemmas

variable {nav : HourlyData → Bool} {minC : ℚ} {build : ℤ → List HourlyData → NavigableSlot}

/-- Every slot produced by `slotsLoop` was either already accumulated, or is
built from a nonempty contiguous run of navigable samples of length at least
`minC`, whose start hour is the run's first sample's hour. -/
theorem slotsLoop_mem (HminC : 0 < minC) :
    ∀ (l runHours : List HourlyData) (runStart : ℤ) (slots : List NavigableSlot),
      (∀ h ∈ runHours, nav h = true) →
      (∀ h ∈ runHours ++ l, 0 ≤ h.hour) →
      (runHours = [] ∧ runStart = -1 ∨ ∃ a t, runHours = a :: t ∧ runStart = a.hour) →
      ∀ s ∈ slotsLoop nav minC build l runStart runHours slots,
        s ∈ slots ∨ ∃ a t, contiguousIn (a :: t) (runHours ++ l) ∧
          minC ≤ ((a :: t).length : ℚ) ∧ (∀ h ∈ a :: t, nav h = true) ∧
          s = build a.hour (a :: t) := by
  intro l
  induction l with
  | nil =>
    intro runHours runStart slots Hnav Hpos Hrs s hs
    simp only [slotsLoop] at hs
    by_cases hc : minC ≤ (runHours.length : ℚ)
    · rw [if_pos hc] at hs
      rcases List.mem_append.1 hs with h | h
      · exact Or.inl h
      · rcases Hrs with ⟨he, _⟩ | ⟨a, t, hrh, hstart⟩
        · exfalso
          rw [he] at hc
          simp only [List.length_nil, Nat.cast_zero] at hc
          linarith
        · refine Or.inr ⟨a, t, ?_, ?_, ?_, ?_⟩
          · exact ⟨[], [], by simp [hrh]⟩
          · rw [← hrh]; exact hc
          · intro x hx; exact Hnav x (hrh ▸ hx)
          · rw [List.mem_singleton.1 h, hstart, hrh]
    · rw [if_neg hc] at hs
      exact Or.inl hs
  | cons h rest ih =>
    intro runHours runStart slots Hnav Hpos Hrs s hs
    simp only [slotsLoop] at hs
    have hlist : (runHours ++ [h]) ++ rest = runHours ++ h :: rest := by simp
    by_cases hn : nav h = true
    · rw [if_pos hn] at hs
      have Hnav' : ∀ x ∈ runHours ++ [h], nav x = true := by
        intro x hx
        rcases List.mem_append.1 hx with hx | hx
        · exact Hnav x hx
        · rw [List.mem_singleton.1 hx]; exact hn
      have Hpos' : ∀ x ∈ (runHours ++ [h]) ++ rest, 0 ≤ x.hour := by
        rw [hlist]; exact Hpos
      have Hrs' : runHours ++ [h] = [] ∧ (if runStart = -1 then h.hour else runStart) = -1 ∨
          ∃ a t, runHours ++ [h] = a :: t ∧
            (if runStart = -1 then h.hour else runStart) = a.hour := by
        rcases Hrs with ⟨he, hst⟩ | ⟨a, t, hrh, hst⟩
        · refine Or.inr ⟨h, [], by simp [he], by rw [if_pos hst]⟩
        · have ha : 0 ≤ a.hour := Hpos a (by simp [hrh])
          have hne : ¬runStart = -1 := by rw [hst]; omega
          exact Or.inr ⟨a, t ++ [h], by simp [hrh], by rw [if_neg hne]; exact hst⟩
      have key := ih (runHours ++ [h]) (if runStart = -1 then h.hour else runStart)
        slots Hnav' Hpos' Hrs' s hs
      rcases key with key | ⟨a, t, hcont, hlen, hnav, hbuild⟩
      · exact Or.inl key
      · exact Or.inr ⟨a, t, hlist ▸ hcont, hlen, hnav, hbuild⟩
    · rw [if_neg hn] at hs
      have Hpos' : ∀ x ∈ ([] : List HourlyData) ++ rest, 0 ≤ x.hour := by
        intro x hx
        refine Hpos x ?_
        simp only [List.nil_append] at hx
        simp [hx]
      have key := ih [] (-1)
        (if minC ≤ (runHours.length : ℚ) then slots ++ [build runStart runHours] else slots)
        (by simp) Hpos' (Or.inl ⟨rfl, rfl⟩) s hs
      rcases key with key | ⟨a, t, hcont, hlen, hnav, hbuild⟩
      · by_cases hc : minC ≤ (runHours.length : ℚ)
        · rw [if_pos hc] at key
          rcases List.mem_append.1 key with hk | hk
          · exact Or.inl hk
          · rcases Hrs with ⟨he, _⟩ | ⟨a, t, hrh, hstart⟩
            · exfalso
              rw [he] at hc
              simp only [List.length_nil, Nat.cast_zero] at hc
              linarith
            · refine Or.inr ⟨a, t, ⟨[], h :: rest, by simp [hrh]⟩, by rw [← hrh]; exact hc,
                fun x hx => Hnav x (hrh ▸ hx), ?_⟩
              rw [List.mem_singleton.1 hk, hstart, hrh]
        · rw [if_neg hc] at key
          exact Or.inl key
      · obtain ⟨p, q, hr⟩ := hcont
        simp only [List.nil_append] at hr
        exact Or.inr ⟨a, t, ⟨runHours ++ h :: p, q, by simp [hr]⟩, hlen, hnav, hbuild⟩

end LoopLemmas

/-! ### Sortedness and density machinery -/

theorem contiguousIn_sublist {r l : List HourlyData} (hc : contiguousIn r l) :
    r.Sublist l := by
  obtain ⟨p, s, rfl⟩ := hc
  rw [List.append_assoc]
  exact (List.sublist_append_left r s).trans (List.sublist_append_right p (r ++ s))

theorem hourAsc_validHours {hourly : List HourlyData} {c : NavigabilityConfig}
    (hs : hourAsc hourly) : hourAsc (validHours hourly c) :=
  List.Pairwise.filter _ hs

theorem run_head_le_getLast {a : HourlyData} {t : List HourlyData}
    (hp : (a :: t).Pairwise (fun x y => x.hour < y.hour)) :
    a.hour ≤ ((a :: t).getLast (List.cons_ne_nil a t)).hour := by
  have hmem := List.getLast_mem (List.cons_ne_nil a t)
  rcases List.mem_cons.1 hmem with he | hmem'
  · exact (congrArg HourlyData.hour he).ge
  · have := (List.pairwise_cons.1 hp).1 _ hmem'
    omega

/-- In a strictly ascending list, any element whose hour lies between the head
and the last sample of a contiguous block belongs to that block. -/
theorem mem_run_of_between {l : List HourlyData} {a : HourlyData}
    {t : List HourlyData} {x : HourlyData}
    (hp : l.Pairwise (fun u v => u.hour < v.hour))
    (hc : contiguousIn (a :: t) l) (hx : x ∈ l)
    (h1 : a.hour ≤ x.hour)
    (h2 : x.hour ≤ ((a :: t).getLast (List.cons_ne_nil a t)).hour) :
    x ∈ a :: t := by
  obtain ⟨p, s, rfl⟩ := hc
  rw [List.append_assoc] at hp hx
  have hdec := List.pairwise_append.1 hp
  have hdec2 := List.pairwise_append.1 hdec.2.1
  rcases List.mem_append.1 hx with hx' | hx'
  · exfalso
    have := hdec.2.2 x hx' a (List.mem_append.2 (Or.inl (List.mem_cons_self a t)))
    omega
  · rcases List.mem_append.1 hx' with hx'' | hx''
    · exact hx''
    · exfalso
      have hlast := List.getLast_mem (List.cons_ne_nil a t)
      have := hdec2.2.2 _ hlast x hx''
      omega

theorem hourDense_head_lt {b : HourlyData} {m : List HourlyData}
    (hd : hourDense (b :: m)) : ∀ x ∈ m, b.hour < x.hour := by
  induction m generalizing b with
  | nil => simp
  | cons c m' ih =>
    intro x hx
    have h1 : c.hour = b.hour + 1 := (List.chain'_cons.1 hd).1
    have h2 : hourDense (c :: m') := (List.chain'_cons.1 hd).2
    rcases List.mem_cons.1 hx with rfl | hx'
    · omega
    · have := ih h2 x hx'
      omega

theorem hourDense_validHours {l : List HourlyData} {c : NavigabilityConfig}
    (hd : hourDense l) : hourDense (validHours l c) := by
  induction l with
  | nil => simp [hourDense, validHours]
  | cons a l' ih =>
    have htail : hourDense l' := List.Chain'.tail hd
    by_cases hpa : c.dayStartHour ≤ a.hour ∧ a.hour < c.dayEndHour
    · have hstep : validHours (a :: l') c = a :: validHours l' c := by
        simp [validHours, List.filter_cons, hpa]
      rw [hstep]
      refine List.chain'_cons'.2 ⟨?_, ih htail⟩
      intro y hy
      cases l' with
      | nil => simp [validHours] at hy
      | cons b l'' =>
        have hb : b.hour = a.hour + 1 := (List.chain'_cons.1 hd).1
        by_cases hpb : c.dayStartHour ≤ b.hour ∧ b.hour < c.dayEndHour
        · have : validHours (b :: l'') c = b :: validHours l'' c := by
            simp [validHours, List.filter_cons, hpb]
          rw [this] at hy
          simp only [List.head?_cons, Option.mem_def, Option.some.injEq] at hy
          rw [← hy]
          omega
        · exfalso
          have hde : c.dayEndHour ≤ b.hour := by
            rcases hpa with ⟨hpa1, hpa2⟩
            by_contra hcon
            exact hpb ⟨by omega, by omega⟩
          have hnil : validHours (b :: l'') c = [] := by
            rw [validHours, List.filter_eq_nil_iff]
            intro y hy'
            rcases List.mem_cons.1 hy' with rfl | hy''
            · simp only [decide_eq_true_eq, not_and]
              omega
            · have := hourDense_head_lt (List.Chain'.tail hd) y hy''
              simp only [decide_eq_true_eq, not_and]
              omega
          rw [hnil] at hy
          simp at hy
    · have hstep : validHours (a :: l') c = validHours l' c := by
        simp [validHours, List.filter_cons, hpa]
      rw [hstep]
      exact ih htail

theorem hourDense_getLast : ∀ {t : List HourlyData} {a : HourlyData},
    hourDense (a :: t) →
    ((a :: t).getLast (List.cons_ne_nil a t)).hour = a.hour + t.length := by
  intro t
  induction t with
  | nil =>
    intro a _
    simp [List.getLast]
  | cons b t' ih =>
    intro a hd
    have h2 : hourDense (b :: t') := (List.chain'_cons.1 hd).2
    have h1 : b.hour = a.hour + 1 := (List.chain'_cons.1 hd).1
    rw [List.getLast_cons (List.cons_ne_nil b t')]
    have h3 := ih h2
    simp only [List.length_cons]
    push_cast
    omega

/-- Every sample of the input whose hour falls inside an output slot's span
passed the navigability test (generic in the test). -/
theorem slots_sound_general (nav : HourlyData → Bool) (hourly : List HourlyData)
    (c : NavigabilityConfig) (HminC : 0 < c.minConsecutiveHours)
    (Hds : 0 ≤ c.dayStartHour) (Hsort : hourAsc hourly) :
    ∀ slot ∈ slotsLoop nav c.minConsecutiveHours Frontend.buildSlot
        (validHours hourly c) (-1) [] [],
      ∀ x ∈ hourly, slot.start ≤ x.hour → x.hour < slot.«end» → nav x = true := by
  intro slot hslot x hx h1 h2
  have Hpos : ∀ h ∈ ([] : List HourlyData) ++ validHours hourly c, 0 ≤ h.hour := by
    intro h hh
    rw [List.nil_append] at hh
    have := (mem_validHours.1 hh).2.1
    omega
  have key := slotsLoop_mem HminC (validHours hourly c) [] (-1) [] (by simp) Hpos
    (Or.inl ⟨rfl, rfl⟩) slot hslot
  rcases key with k | ⟨a, t, hcont, hlen, hnav, hbuild⟩
  · simp at k
  · rw [List.nil_append] at hcont
    have hstart : slot.start = a.hour := by rw [hbuild, buildSlot_start]
    have hend : slot.«end» = ((a :: t).getLast (List.cons_ne_nil a t)).hour + 1 := by
      rw [hbuild, buildSlot_end_cons]
    have hsortv : (validHours hourly c).Pairwise (fun u v => u.hour < v.hour) :=
      hourAsc_validHours Hsort
    have ha : a ∈ validHours hourly c :=
      contiguousIn_subset hcont a (List.mem_cons_self a t)
    have hlastm : ((a :: t).getLast (List.cons_ne_nil a t)) ∈ validHours hourly c :=
      contiguousIn_subset hcont _ (List.getLast_mem (List.cons_ne_nil a t))
    have hxv : x ∈ validHours hourly c := by
      refine mem_validHours.2 ⟨hx, ?_, ?_⟩
      · have := (mem_validHours.1 ha).2.1
        omega
      · have := (mem_validHours.1 hlastm).2.2
        omega
    have hxrun : x ∈ a :: t := mem_run_of_between hsortv hcont hxv (by omega) (by omega)
    exact hnav x hxrun

/-- The slots accumulated by the loop stay pairwise ordered and non-overlapping
when the scanned samples are strictly ascending in hour. -/
theorem slotsLoop_pairwise {nav : HourlyData → Bool} {minC : ℚ} (HminC : 0 < minC) :
    ∀ (l runHours : List HourlyData) (runStart : ℤ) (slots : List NavigableSlot),
      ((runHours ++ l).Pairwise fun u v => u.hour < v.hour) →
      (∀ h ∈ runHours ++ l, 0 ≤ h.hour) →
      (runHours = [] ∧ runStart = -1 ∨ ∃ a t, runHours = a :: t ∧ runStart = a.hour) →
      slots.Pairwise slotOrd →
      (∀ s ∈ slots, s.start < s.«end») →
      (∀ s ∈ slots, ∀ h ∈ runHours ++ l, s.«end» ≤ h.hour) →
      (slotsLoop nav minC Frontend.buildSlot l runStart runHours slots).Pairwise slotOrd := by
  intro l
  induction l with
  | nil =>
    intro runHours runStart slots Hsort Hpos Hrs HP HLT HE
    simp only [slotsLoop]
    by_cases hc : minC ≤ (runHours.length : ℚ)
    · rw [if_pos hc]
      rcases Hrs with ⟨he, _⟩ | ⟨a, t, hrh, hst⟩
      · exfalso
        rw [he] at hc
        simp only [List.length_nil, Nat.cast_zero] at hc
        linarith
      · refine List.pairwise_append.2 ⟨HP, by simp, ?_⟩
        intro s hs s' hs'
        rw [List.mem_singleton.1 hs', hst, hrh]
        have h1 := HLT s hs
        have h2 := HE s hs a (by simp [hrh])
        refine ⟨?_, ?_⟩
        · rw [buildSlot_start]; omega
        · rw [buildSlot_start]; omega
    · rw [if_neg hc]
      exact HP
  | cons h rest ih =>
    intro runHours runStart slots Hsort Hpos Hrs HP HLT HE
    simp only [slotsLoop]
    have hlist : (runHours ++ [h]) ++ rest = runHours ++ h :: rest := by simp
    by_cases hn : nav h = true
    · rw [if_pos hn]
      refine ih (runHours ++ [h]) (if runStart = -1 then h.hour else runStart) slots
        ?_ ?_ ?_ HP HLT ?_
      · rw [hlist]; exact Hsort
      · rw [hlist]; exact Hpos
      · rcases Hrs with ⟨he, hst⟩ | ⟨a, t, hrh, hst⟩
        · exact Or.inr ⟨h, [], by simp [he], by rw [if_pos hst]⟩
        · have ha : 0 ≤ a.hour := Hpos a (by simp [hrh])
          have hne : ¬runStart = -1 := by rw [hst]; omega
          exact Or.inr ⟨a, t ++ [h], by simp [hrh], by rw [if_neg hne]; exact hst⟩
      · intro s hs x hx
        rw [hlist] at hx
        exact HE s hs x hx
    · rw [if_neg hn]
      have hsub : rest.Sublist (runHours ++ h :: rest) :=
        (List.sublist_cons_self h rest).trans (List.sublist_append_right runHours (h :: rest))
      have Hsort' : (([] : List HourlyData) ++ rest).Pairwise fun u v => u.hour < v.hour := by
        rw [List.nil_append]
        exact Hsort.sublist hsub
      have Hpos' : ∀ x ∈ ([] : List HourlyData) ++ rest, 0 ≤ x.hour := by
        intro x hx
        rw [List.nil_append] at hx
        exact Hpos x (by simp [hx])
      by_cases hc : minC ≤ (runHours.length : ℚ)
      · rw [if_pos hc]
        rcases Hrs with ⟨he, _⟩ | ⟨a, t, hrh, hst⟩
        · exfalso
          rw [he] at hc
          simp only [List.length_nil, Nat.cast_zero] at hc
          linarith
        · have hrunsort : (a :: t).Pairwise (fun u v => u.hour < v.hour) := by
            refine Hsort.sublist ?_
            rw [← hrh]
            exact List.sublist_append_left runHours (h :: rest)
          have hcross : ∀ y ∈ runHours, ∀ z ∈ h :: rest, y.hour < z.hour :=
            (List.pairwise_append.1 Hsort).2.2
          have hlastm := List.getLast_mem (List.cons_ne_nil a t)
          have hlastrun : ((a :: t).getLast (List.cons_ne_nil a t)) ∈ runHours := by
            rw [hrh]; exact hlastm
          have hheadrun : a ∈ runHours := by rw [hrh]; exact List.mem_cons_self a t
          have hstart : (Frontend.buildSlot runStart runHours).start = a.hour := by
            rw [hst, buildSlot_start]
          have hendv : (Frontend.buildSlot runStart runHours).«end» =
              ((a :: t).getLast (List.cons_ne_nil a t)).hour + 1 := by
            rw [hrh, buildSlot_end_cons]
          refine ih [] (-1) (slots ++ [Frontend.buildSlot runStart runHours])
            Hsort' Hpos' (Or.inl ⟨rfl, rfl⟩) ?_ ?_ ?_
          · refine List.pairwise_append.2 ⟨HP, by simp, ?_⟩
            intro s hs s' hs'
            rw [List.mem_singleton.1 hs']
            have h1 := HLT s hs
            have h2 := HE s hs a (by simp [hheadrun])
            refine ⟨?_, ?_⟩
            · rw [hstart]; omega
            · rw [hstart]; omega
          · intro s hs
            rcases List.mem_append.1 hs with hs' | hs'
            · exact HLT s hs'
            · rw [List.mem_singleton.1 hs', hstart, hendv]
              have := run_head_le_getLast hrunsort
              omega
          · intro s hs x hx
            rw [List.nil_append] at hx
            rcases List.mem_append.1 hs with hs' | hs'
            · exact HE s hs' x (by simp [hx])
            · rw [List.mem_singleton.1 hs', hendv]
              have := hcross _ hlastrun x (List.mem_cons_of_mem h hx)
              omega
      · rw [if_neg hc]
        refine ih [] (-1) slots Hsort' Hpos' (Or.inl ⟨rfl, rfl⟩) HP HLT ?_
        intro s hs x hx
        rw [List.nil_append] at hx
        exact HE s hs x (by simp [hx])

/-- Two loops whose navigability tests agree on every scanned sample return
the same slots. -/
theorem slotsLoop_congr {minC : ℚ} {build : ℤ → List HourlyData → NavigableSlot}
    (nav1 nav2 : HourlyData → Bool) :
    ∀ (l : List HourlyData) (runStart : ℤ) (runHours : List HourlyData)
      (slots : List NavigableSlot),
      (∀ h ∈ l, nav1 h = nav2 h) →
      slotsLoop nav1 minC build l runStart runHours slots =
        slotsLoop nav2 minC build l runStart runHours slots := by
  intro l
  induction l with
  | nil => intro runStart runHours slots _; rfl
  | cons h rest ih =>
    intro runStart runHours slots hagree
    simp only [slotsLoop]
    rw [hagree h (List.mem_cons_self h rest)]
    by_cases hn : nav2 h = true
    · rw [if_pos hn, if_pos hn]
      exact ih _ _ _ (fun x hx => hagree x (List.mem_cons_of_mem h hx))
    · rw [if_neg hn, if_neg hn]
      exact ih _ _ _ (fun x hx => hagree x (List.mem_cons_of_mem h hx))

/-! ### Range of `atan2` and concrete evaluations of the direction helpers -/

theorem atan2_le_pi (y x : ℝ) : atan2 y x ≤ Real.pi := by
  have hπ := Real.pi_pos
  unfold atan2
  split_ifs with h1 h2 h3 h4 h5
  · have := Real.arctan_lt_pi_div_two (y / x)
    linarith
  · have hyx : y / x ≤ 0 := div_nonpos_of_nonneg_of_nonpos h3 h2.le
    have harc : Real.arctan (y / x) ≤ 0 := by
      have := Real.arctan_strictMono.monotone hyx
      rwa [Real.arctan_zero] at this
    linarith
  · have := Real.arctan_lt_pi_div_two (y / x)
    linarith
  · linarith
  · linarith
  · linarith

theorem neg_pi_lt_atan2 (y x : ℝ) : -Real.pi < atan2 y x := by
  have hπ := Real.pi_pos
  unfold atan2
  split_ifs with h1 h2 h3 h4 h5
  · have := Real.neg_pi_div_two_lt_arctan (y / x)
    linarith
  · have := Real.neg_pi_div_two_lt_arctan (y / x)
    linarith
  · have hy : y < 0 := lt_of_not_ge h3
    have hyx : 0 < y / x := div_pos_of_neg_of_neg hy h2
    have harc : 0 < Real.arctan (y / x) := by
      have := Real.arctan_strictMono hyx
      rwa [Real.arctan_zero] at this
    linarith
  · linarith
  · linarith
  · linarith

/-- Normalising an angle in `(-π, π]` to degrees, wrapping negatives by
adding 360, and JS-rounding always lands in `[0, 360]` — with 360 itself
attainable. -/
theorem jsRound_wrap_bounds (θ : ℝ) (hlo : -Real.pi < θ) (hhi : θ ≤ Real.pi) :
    0 ≤ jsRoundR (if θ * 180 / Real.pi < 0 then θ * 180 / Real.pi + 360
        else θ * 180 / Real.pi) ∧
    jsRoundR (if θ * 180 / Real.pi < 0 then θ * 180 / Real.pi + 360
        else θ * 180 / Real.pi) ≤ 360 := by
  have hπ := Real.pi_pos
  have hub : θ * 180 / Real.pi ≤ 180 := by
    rw [div_le_iff₀ hπ]
    nlinarith
  have hlb : -180 < θ * 180 / Real.pi := by
    rw [lt_div_iff₀ hπ]
    nlinarith
  have hB0 : 0 ≤ (if θ * 180 / Real.pi < 0 then θ * 180 / Real.pi + 360
      else θ * 180 / Real.pi) := by
    split_ifs with h
    · linarith
    · linarith
  have hB360 : (if θ * 180 / Real.pi < 0 then θ * 180 / Real.pi + 360
      else θ * 180 / Real.pi) < 360 := by
    split_ifs with h
    · linarith
    · linarith
  constructor
  · exact Int.le_floor.2 (by push_cast; linarith)
  · have hfl : jsRoundR (if θ * 180 / Real.pi < 0 then θ * 180 / Real.pi + 360
        else θ * 180 / Real.pi) < 361 := by
      unfold jsRoundR
      exact Int.floor_lt.2 (by push_cast; linarith)
    omega

theorem averageDirection_4x180 : averageDirection [(180 : ℝ), 180, 180, 180] = 180 := by
  have hπ := Real.pi_pos
  have h180 : (180 : ℝ) * Real.pi / 180 = Real.pi := by ring
  simp only [averageDirection, List.foldl_cons, List.foldl_nil, h180, Real.sin_pi,
    Real.cos_pi]
  norm_num
  have hat : atan2 0 (-4 : ℝ) = Real.pi := by
    unfold atan2
    rw [if_neg (by norm_num), if_pos (by norm_num), if_pos (by norm_num), zero_div,
      Real.arctan_zero, zero_add]
  rw [hat]
  have havg : Real.pi * 180 / Real.pi = 180 := by
    field_simp
  rw [havg, if_neg (by norm_num)]
  unfold jsRoundR
  rw [show (180 : ℝ) + 1 / 2 = 361 / 2 by norm_num, Int.floor_eq_iff] <;> norm_num

theorem averageDirection_35975 : averageDirection [(1439 / 4 : ℝ)] = 360 := by
  have hπ := Real.pi_pos
  have hkey : (1439 / 4 : ℝ) * Real.pi / 180 = -(Real.pi / 720) + 2 * Real.pi := by ring
  simp only [averageDirection, List.foldl_cons, List.foldl_nil, hkey,
    Real.sin_add_two_pi, Real.cos_add_two_pi, Real.sin_neg, Real.cos_neg]
  rw [show (0 : ℝ) + -Real.sin (Real.pi / 720) = -Real.sin (Real.pi / 720) by ring,
    show (0 : ℝ) + Real.cos (Real.pi / 720) = Real.cos (Real.pi / 720) by ring]
  have hcpos : 0 < Real.cos (Real.pi / 720) :=
    Real.cos_pos_of_mem_Ioo ⟨by linarith, by linarith⟩
  have hat : atan2 (-Real.sin (Real.pi / 720)) (Real.cos (Real.pi / 720)) =
      -(Real.pi / 720) := by
    unfold atan2
    rw [if_pos hcpos]
    have htan : -Real.sin (Real.pi / 720) / Real.cos (Real.pi / 720) =
        Real.tan (-(Real.pi / 720)) := by
      rw [Real.tan_eq_sin_div_cos, Real.sin_neg, Real.cos_neg, neg_div]
    rw [htan]
    exact Real.arctan_tan (by linarith) (by linarith)
  rw [hat]
  have havg : -(Real.pi / 720) * 180 / Real.pi = -(1 / 4) := by
    field_simp
    ring
  rw [havg, if_pos (by norm_num)]
  unfold jsRoundR
  rw [show (-(1 / 4) : ℝ) + 360 + 1 / 2 = 1441 / 4 by norm_num, Int.floor_eq_iff] <;>
    norm_num

theorem dirText_180 : Frontend.dirText ((180 : ℤ) : ℝ) = some "S" := by
  have h1 : jsRoundR (((180 : ℤ) : ℝ) / 22.5) = 8 := by
    unfold jsRoundR
    rw [show ((180 : ℤ) : ℝ) / 22.5 + 1 / 2 = 17 / 2 by norm_num, Int.floor_eq_iff] <;>
      norm_num
  simp only [Frontend.dirText, h1]
  rfl

theorem dirText_neg45 : Frontend.dirText (-45 : ℝ) = none := by
  have h1 : jsRoundR ((-45 : ℝ) / 22.5) = -2 := by
    unfold jsRoundR
    rw [show (-45 : ℝ) / 22.5 + 1 / 2 = -(3 / 2) by norm_num, Int.floor_eq_iff] <;>
      norm_num
  simp only [Frontend.dirText, h1]
  rfl

/-! ### The claims -/

/-- C1: in the functions-side variant, every sample classified navigable (and
hence every sample inside any output slot's span) satisfies
`windSpeedMin <= speed <= windSpeedMax` in addition to `gust >= gustMin`;
equivalently, a sample with `speed > windSpeedMax` is never part of any
output slot.  Stated for configs with a positive `minConsecutiveHours` and a
nonnegative `dayStartHour` (the spec's §3 config invariants) and ascending,
hour-unique input (the spec's §3 input invariant). -/
theorem c1_windSpeedMax_sound (hourly : List HourlyData) (c : NavigabilityConfig)
    (HminC : 0 < c.minConsecutiveHours) (Hds : 0 ≤ c.dayStartHour)
    (Hsort : hourAsc hourly) :
    (∀ h : HourlyData, Functions.isNavigable c h = true ↔
      c.windSpeedMin ≤ h.speed ∧ h.speed ≤ c.windSpeedMax ∧ c.gustMin ≤ h.gust) ∧
    (∀ slot ∈ Functions.calculateSlots hourly c, ∀ x ∈ hourly,
      slot.start ≤ x.hour → x.hour < slot.«end» →
      c.windSpeedMin ≤ x.speed ∧ x.speed ≤ c.windSpeedMax ∧ c.gustMin ≤ x.gust) := by
  constructor
  · intro h
    simp [Functions.isNavigable, Bool.and_eq_true, decide_eq_true_eq, and_assoc]
  · intro slot hslot x hx h1 h2
    simp only [Functions.calculateSlots, buildSlot_eq] at hslot
    have := slots_sound_general (Functions.isNavigable c) hourly c HminC Hds Hsort
      slot hslot x hx h1 h2
    simpa [Functions.isNavigable, Bool.and_eq_true, decide_eq_true_eq, and_assoc]
      using this

/-- C1 witness: the two-hour navigable run satisfies the bounds. -/
theorem c1_windSpeedMax_sound_witness :
    (0 < navConfig.minConsecutiveHours ∧ 0 ≤ navConfig.dayStartHour ∧ hourAsc navInput) ∧
    (∀ slot ∈ Functions.calculateSlots navInput navConfig, ∀ x ∈ navInput,
      slot.start ≤ x.hour → x.hour < slot.«end» →
      navConfig.windSpeedMin ≤ x.speed ∧ x.speed ≤ navConfig.windSpeedMax ∧
        navConfig.gustMin ≤ x.gust) :=
  ⟨⟨by norm_num [navConfig], by norm_num [navConfig], by unfold hourAsc; decide⟩,
    (c1_windSpeedMax_sound navInput navConfig (by norm_num [navConfig])
      (by norm_num [navConfig]) (by unfold hourAsc; decide)).2⟩

/-- C2 (amended): for ascending, hour-unique input and a config with positive
`minConsecutiveHours` and nonnegative `dayStartHour`, every output slot has
`hours >= minConsecutiveHours`; the second equation `hours == end - start`
holds when the input hours are additionally gap-free (consecutive), since the
scanner does not detect missing hours inside a run. -/
theorem c2_min_length_and_span (hourly : List HourlyData) (c : NavigabilityConfig)
    (HminC : 0 < c.minConsecutiveHours) (Hds : 0 ≤ c.dayStartHour)
    (_Hsort : hourAsc hourly) :
    ∀ slot ∈ Frontend.calculateSlots hourly c,
      c.minConsecutiveHours ≤ (slot.hours : ℚ) ∧
      (hourDense hourly → (slot.hours : ℤ) = slot.«end» - slot.start) := by
  intro slot hslot
  simp only [Frontend.calculateSlots] at hslot
  have Hpos : ∀ h ∈ ([] : List HourlyData) ++ validHours hourly c, 0 ≤ h.hour := by
    intro h hh
    rw [List.nil_append] at hh
    have := (mem_validHours.1 hh).2.1
    omega
  have key := slotsLoop_mem HminC (validHours hourly c) [] (-1) [] (by simp) Hpos
    (Or.inl ⟨rfl, rfl⟩) slot hslot
  rcases key with k | ⟨a, t, hcont, hlen, hnav, hbuild⟩
  · simp at k
  · rw [List.nil_append] at hcont
    constructor
    · rw [hbuild, buildSlot_hours]
      exact hlen
    · intro Hdense
      have hdv : hourDense (validHours hourly c) := hourDense_validHours Hdense
      have hrun : hourDense (a :: t) := by
        obtain ⟨p, s, hps⟩ := hcont
        rw [hps, List.append_assoc] at hdv
        exact (List.chain'_append.1 (List.chain'_append.1 hdv).2.1).1
      have hlasth := hourDense_getLast hrun
      rw [hbuild, buildSlot_hours, buildSlot_start, buildSlot_end_cons]
      simp only [List.length_cons]
      push_cast
      push_cast at hlasth
      omega

/-- C2 witness: minimum length holds on the gapped ascending input, and both
equations hold on the dense two-hour run. -/
theorem c2_min_length_and_span_witness :
    (0 < gapConfig.minConsecutiveHours ∧ 0 ≤ gapConfig.dayStartHour ∧
      hourAsc gapInput) ∧
    (∀ slot ∈ Frontend.calculateSlots gapInput gapConfig,
      gapConfig.minConsecutiveHours ≤ (slot.hours : ℚ) ∧
      (hourDense gapInput → (slot.hours : ℤ) = slot.«end» - slot.start)) ∧
    (∀ slot ∈ Frontend.calculateSlots navInput navConfig,
      navConfig.minConsecutiveHours ≤ (slot.hours : ℚ) ∧
      (hourDense navInput → (slot.hours : ℤ) = slot.«end» - slot.start)) :=
  ⟨⟨by norm_num [gapConfig], by norm_num [gapConfig], by unfold hourAsc; decide⟩,
    c2_min_length_and_span gapInput gapConfig (by norm_num [gapConfig])
      (by norm_num [gapConfig]) (by unfold hourAsc; decide),
    c2_min_length_and_span navInput navConfig (by norm_num [navConfig])
      (by norm_num [navConfig]) (by unfold hourAsc; decide)⟩

/-- C2 counterexample: ascending, hour-unique input with a missing hour 11
(hours 10 and 12 both navigable) produces a slot with `hours = 2` but
`end - start = 3`: the claim's equation fails as stated. -/
theorem c2_gap_counterexample :
    hourAsc gapInput ∧
    ∃ slot ∈ Frontend.calculateSlots gapInput gapConfig,
      ¬((slot.hours : ℤ) = slot.«end» - slot.start) := by
  constructor
  · unfold hourAsc
    decide
  · refine ⟨Frontend.buildSlot 10 [mkH 10 20 30 0, mkH 12 20 30 0], ?_, ?_⟩
    · rw [show Frontend.calculateSlots gapInput gapConfig =
        [Frontend.buildSlot 10 [mkH 10 20 30 0, mkH 12 20 30 0]] from rfl]
      exact List.mem_singleton.2 rfl
    · show ¬((2 : ℤ) = 13 - 10)
      decide

/-- C3 (amended): for every nonnegative real degree input, the compass index
`round(deg / 22.5) % 16` lies in `0..15` and `dirText` returns one of the 16
fixed compass labels (in particular degrees arbitrarily close to 360 wrap to a
valid index).  The restriction to nonnegative degrees is needed: at some
negative inputs, such as -45, the JS remainder is negative and the lookup
yields `undefined` (see the counterexample below). -/
theorem c3_compass_total (deg : ℝ) (hdeg : 0 ≤ deg) :
    0 ≤ Int.tmod (jsRoundR (deg / 22.5)) 16 ∧
    Int.tmod (jsRoundR (deg / 22.5)) 16 < 16 ∧
    ∃ lbl, Frontend.dirText deg = some lbl ∧ lbl ∈ Frontend.compassDirs := by
  have hidx0 : 0 ≤ jsRoundR (deg / 22.5) := by
    unfold jsRoundR
    apply Int.le_floor.2
    push_cast
    have h1 : 0 ≤ deg / 22.5 := div_nonneg hdeg (by norm_num)
    linarith
  have h0 : 0 ≤ Int.tmod (jsRoundR (deg / 22.5)) 16 := Int.tmod_nonneg _ hidx0
  have h16 : Int.tmod (jsRoundR (deg / 22.5)) 16 < 16 :=
    Int.tmod_lt_of_pos _ (by norm_num)
  refine ⟨h0, h16, ?_⟩
  have hlen : (Int.tmod (jsRoundR (deg / 22.5)) 16).toNat < Frontend.compassDirs.length := by
    simp only [Frontend.compassDirs, List.length_cons, List.length_nil]
    omega
  refine ⟨Frontend.compassDirs[(Int.tmod (jsRoundR (deg / 22.5)) 16).toNat], ?_, ?_⟩
  · simp only [Frontend.dirText]
    rw [if_pos h0]
    exact List.getElem?_eq_getElem hlen
  · exact List.getElem_mem hlen

/-- C3 witness: at 359 degrees the encoder wraps to a valid label. -/
theorem c3_compass_total_witness :
    (0 : ℝ) ≤ 359 ∧
    (0 ≤ Int.tmod (jsRoundR ((359 : ℝ) / 22.5)) 16 ∧
      Int.tmod (jsRoundR ((359 : ℝ) / 22.5)) 16 < 16 ∧
      ∃ lbl, Frontend.dirText (359 : ℝ) = some lbl ∧ lbl ∈ Frontend.compassDirs) :=
  ⟨by norm_num, c3_compass_total 359 (by norm_num)⟩

/-- C3 counterexample: at -45 degrees `Math.round(-45 / 22.5) % 16 = -2` in
JavaScript, so the lookup is out of range and `dirText` yields `undefined`,
not one of the 16 strings. -/
theorem c3_negative_counterexample : Frontend.dirText (-45 : ℝ) = none := by
  have h1 : jsRoundR ((-45 : ℝ) / 22.5) = -2 := by
    unfold jsRoundR
    rw [show (-45 : ℝ) / 22.5 + 1 / 2 = -(3 / 2) by norm_num, Int.floor_eq_iff] <;>
      norm_num
  simp only [Frontend.dirText, h1]
  rfl

/-- C4 (amended): for every (nonempty) list of real degree inputs the rounded
circular mean lies in the closed interval `[0, 360]`: it is never negative,
but the final rounding step can produce exactly 360 (for a pre-rounding value
in `[359.5, 360)`), so the half-open interval `[0, 360)` of the claim is off
by that one endpoint. -/
theorem c4_direction_range (directions : List ℝ) (_hne : directions ≠ []) :
    0 ≤ averageDirection directions ∧ averageDirection directions ≤ 360 := by
  simp only [averageDirection]
  exact jsRound_wrap_bounds _ (neg_pi_lt_atan2 _ _) (atan2_le_pi _ _)

/-- C4 witness: the bounds at the concrete input `[350, 10]`. -/
theorem c4_direction_range_witness :
    ([(350 : ℝ), 10] ≠ []) ∧
    (0 ≤ averageDirection [(350 : ℝ), 10] ∧ averageDirection [(350 : ℝ), 10] ≤ 360) :=
  ⟨List.cons_ne_nil _ _, c4_direction_range [(350 : ℝ), 10] (List.cons_ne_nil _ _)⟩

/-- C4 counterexample: for the single direction 359.75 the vector mean is
359.75 and `Math.round` takes it to 360, which is outside `[0, 360)`: the
claim "the result is never 360 or more" fails. -/
theorem c4_round_counterexample :
    averageDirection [(1439 / 4 : ℝ)] = 360 ∧
    ¬(averageDirection [(1439 / 4 : ℝ)] < 360) :=
  ⟨averageDirection_35975, by rw [averageDirection_35975]; decide⟩

/-- C5: for ascending, hour-unique input (and a config with positive
`minConsecutiveHours` and nonnegative `dayStartHour`, the spec's §3
invariants), the returned slots are pairwise ordered: strictly ascending
`start` and `end <= start` of any later slot (no overlap). -/
theorem c5_slots_ordered (hourly : List HourlyData) (c : NavigabilityConfig)
    (HminC : 0 < c.minConsecutiveHours) (Hds : 0 ≤ c.dayStartHour)
    (Hsort : hourAsc hourly) :
    (Frontend.calculateSlots hourly c).Pairwise slotOrd := by
  simp only [Frontend.calculateSlots]
  refine slotsLoop_pairwise HminC (validHours hourly c) [] (-1) [] ?_ ?_
    (Or.inl ⟨rfl, rfl⟩) (by simp) (by simp) (by simp)
  · rw [List.nil_append]
    exact hourAsc_validHours Hsort
  · intro h hh
    rw [List.nil_append] at hh
    have := (mem_validHours.1 hh).2.1
    omega

/-- C5 witness: ordering of the slots for the two-hour navigable run. -/
theorem c5_slots_ordered_witness :
    (0 < navConfig.minConsecutiveHours ∧ 0 ≤ navConfig.dayStartHour ∧ hourAsc navInput) ∧
    (Frontend.calculateSlots navInput navConfig).Pairwise slotOrd :=
  ⟨⟨by norm_num [navConfig], by norm_num [navConfig], by unfold hourAsc; decide⟩,
    c5_slots_ordered navInput navConfig (by norm_num [navConfig])
      (by norm_num [navConfig]) (by unfold hourAsc; decide)⟩

/-- C6: threshold soundness for both variants: every input sample whose hour
lies in `[slot.start, slot.end)` of an output slot satisfies the navigability
predicate — `speed >= windSpeedMin` and `gust >= gustMin`, plus
`speed <= windSpeedMax` in the variant where that bound is configured. -/
theorem c6_threshold_soundness (hourly : List HourlyData) (c : NavigabilityConfig)
    (HminC : 0 < c.minConsecutiveHours) (Hds : 0 ≤ c.dayStartHour)
    (Hsort : hourAsc hourly) :
    (∀ slot ∈ Frontend.calculateSlots hourly c, ∀ x ∈ hourly,
      slot.start ≤ x.hour → x.hour < slot.«end» →
      c.windSpeedMin ≤ x.speed ∧ c.gustMin ≤ x.gust) ∧
    (∀ slot ∈ Functions.calculateSlots hourly c, ∀ x ∈ hourly,
      slot.start ≤ x.hour → x.hour < slot.«end» →
      c.windSpeedMin ≤ x.speed ∧ x.speed ≤ c.windSpeedMax ∧ c.gustMin ≤ x.gust) := by
  constructor
  · intro slot hslot x hx h1 h2
    simp only [Frontend.calculateSlots] at hslot
    have := slots_sound_general (Frontend.isNavigable c) hourly c HminC Hds Hsort
      slot hslot x hx h1 h2
    simpa [Frontend.isNavigable, Bool.and_eq_true, decide_eq_true_eq] using this
  · intro slot hslot x hx h1 h2
    simp only [Functions.calculateSlots, buildSlot_eq] at hslot
    have := slots_sound_general (Functions.isNavigable c) hourly c HminC Hds Hsort
      slot hslot x hx h1 h2
    simpa [Functions.isNavigable, Bool.and_eq_true, decide_eq_true_eq, and_assoc]
      using this

/-- C6 witness: threshold soundness on the two-hour navigable run. -/
theorem c6_threshold_soundness_witness :
    (0 < navConfig.minConsecutiveHours ∧ 0 ≤ navConfig.dayStartHour ∧ hourAsc navInput) ∧
    (∀ slot ∈ Frontend.calculateSlots navInput navConfig, ∀ x ∈ navInput,
      slot.start ≤ x.hour → x.hour < slot.«end» →
      navConfig.windSpeedMin ≤ x.speed ∧ navConfig.gustMin ≤ x.gust) :=
  ⟨⟨by norm_num [navConfig], by norm_num [navConfig], by unfold hourAsc; decide⟩,
    (c6_threshold_soundness navInput navConfig (by norm_num [navConfig])
      (by norm_num [navConfig]) (by unfold hourAsc; decide)).1⟩

/-- C7: the spec's concrete scenario 1: hours 7-19, with speed 20 / gust 30 /
direction 180 on hours 10-13 and speed 5 / gust 10 elsewhere, under config
`{windSpeedMin 15, gustMin 25, minConsecutiveHours 2, dayStartHour 7,
dayEndHour 20}` yields exactly one slot
`{start 10, end 14, hours 4, avgSpeed 20, avgGust 30, direction "S"}`. -/
theorem c7_scenario1 : Frontend.calculateSlots scenario1Input scenario1Config =
    [⟨10, 14, 4, 20, 30, some "S"⟩] := by
  have hrun : Frontend.calculateSlots scenario1Input scenario1Config =
      [Frontend.buildSlot 10 [mkH 10 20 30 180, mkH 11 20 30 180, mkH 12 20 30 180,
        mkH 13 20 30 180]] := by rfl
  have hmap : ([mkH 10 20 30 180, mkH 11 20 30 180, mkH 12 20 30 180,
      mkH 13 20 30 180].map (fun h => (h.dir : ℝ))) = [(180 : ℝ), 180, 180, 180] := by
    simp only [List.map_cons, List.map_nil, mkH]
    norm_num
  have hdir2 : Frontend.dirText ((averageDirection ([mkH 10 20 30 180, mkH 11 20 30 180,
      mkH 12 20 30 180, mkH 13 20 30 180].map (fun h => (h.dir : ℝ))) : ℤ) : ℝ) =
      some "S" := by
    rw [hmap, averageDirection_4x180]
    exact dirText_180
  rw [hrun]
  simp only [Frontend.buildSlot, hdir2, List.cons.injEq, and_true, NavigableSlot.mk.injEq]
  norm_num [mkH, jsRound, List.getLast?_cons_cons, List.getLast?_singleton]

/-- C8: window containment: under the spec's config invariants
(`minConsecutiveHours >= 1`, `dayStartHour >= 0`), every output slot satisfies
`dayStartHour <= start` and `end <= dayEndHour`; no hour outside the window
`[dayStartHour, dayEndHour)` is part of any slot. -/
theorem c8_window_containment (hourly : List HourlyData) (c : NavigabilityConfig)
    (HminC : 0 < c.minConsecutiveHours) (Hds : 0 ≤ c.dayStartHour) :
    ∀ slot ∈ Frontend.calculateSlots hourly c,
      c.dayStartHour ≤ slot.start ∧ slot.«end» ≤ c.dayEndHour := by
  intro slot hslot
  simp only [Frontend.calculateSlots] at hslot
  have Hpos : ∀ h ∈ ([] : List HourlyData) ++ validHours hourly c, 0 ≤ h.hour := by
    intro h hh
    rw [List.nil_append] at hh
    have := (mem_validHours.1 hh).2.1
    omega
  have key := slotsLoop_mem HminC (validHours hourly c) [] (-1) [] (by simp) Hpos
    (Or.inl ⟨rfl, rfl⟩) slot hslot
  rcases key with k | ⟨a, t, hcont, hlen, hnav, hbuild⟩
  · simp at k
  · rw [List.nil_append] at hcont
    have ha := mem_validHours.1 (contiguousIn_subset hcont a (List.mem_cons_self a t))
    have hlast := mem_validHours.1 (contiguousIn_subset hcont _
      (List.getLast_mem (List.cons_ne_nil a t)))
    constructor
    · rw [hbuild, buildSlot_start]
      exact ha.2.1
    · rw [hbuild, buildSlot_end_cons]
      have := hlast.2.2
      omega

/-- C8 witness: window containment on the two-hour navigable run. -/
theorem c8_window_containment_witness :
    (0 < navConfig.minConsecutiveHours ∧ 0 ≤ navConfig.dayStartHour) ∧
    (∀ slot ∈ Frontend.calculateSlots navInput navConfig,
      navConfig.dayStartHour ≤ slot.start ∧ slot.«end» ≤ navConfig.dayEndHour) :=
  ⟨⟨by norm_num [navConfig], by norm_num [navConfig]⟩,
    c8_window_containment navInput navConfig (by norm_num [navConfig])
      (by norm_num [navConfig])⟩

/-- C10: whenever every in-window sample's speed is at most `windSpeedMax`,
the functions-side `calculateSlots` (which tests the bound) and the front-end
one (which does not) return identical slot lists; their compass label tables
are identical. -/
theorem c10_variants_agree (hourly : List HourlyData) (c : NavigabilityConfig)
    (Hmax : ∀ h ∈ hourly, c.dayStartHour ≤ h.hour → h.hour < c.dayEndHour →
      h.speed ≤ c.windSpeedMax) :
    Functions.calculateSlots hourly c = Frontend.calculateSlots hourly c ∧
    Functions.compassDirs = Frontend.compassDirs := by
  refine ⟨?_, rfl⟩
  simp only [Functions.calculateSlots, Frontend.calculateSlots, buildSlot_eq]
  apply slotsLoop_congr
  intro h hh
  have hw := mem_validHours.1 hh
  have hs := Hmax h hw.1 hw.2.1 hw.2.2
  simp [Functions.isNavigable, Frontend.isNavigable, hs]

/-- C10 witness: agreement of the two variants on the gap input, whose speeds
are all below the ceiling. -/
theorem c10_variants_agree_witness :
    (∀ h ∈ gapInput, gapConfig.dayStartHour ≤ h.hour → h.hour < gapConfig.dayEndHour →
      h.speed ≤ gapConfig.windSpeedMax) ∧
    (Functions.calculateSlots gapInput gapConfig = Frontend.calculateSlots gapInput gapConfig ∧
      Functions.compassDirs = Frontend.compassDirs) :=
  ⟨by decide, c10_variants_agree gapInput gapConfig (by decide)⟩
